import Mathlib

/-!
Shallow embedding of the urdf-trajectory-exporter library: `models.py`
(JointState normalization), `urdf_parser.py` (actuated-joint scan) and
`writer.py` (trajectory validation and CSV/JSON serialization).

Python dicts are modelled as association lists in which a later binding
shadows an earlier one (so `dict(zip(names, values))` is the zip list under
that reading), file I/O as an explicit file-system state threaded through
`write`, and the XML layer as the pre-parsed list of the root's direct child
elements.  Joint position values are an arbitrary type `α`, since the code
never computes with them.
-/

namespace UTE

/-- Python string comparison on code points: lexicographic order on the
underlying character lists. -/
def charsLe : List Char → List Char → Bool
  | [], _ => true
  | _ :: _, [] => false
  | a :: as, b :: bs =>
    if a.toNat < b.toNat then true
    else if b.toNat < a.toNat then false
    else charsLe as bs

/-- Python `a <= b` on strings. -/
def strLe (a b : String) : Bool := charsLe a.data b.data

/-- Python `sorted()` on a list of strings. -/
def sortNames (l : List String) : List String :=
  List.insertionSort (fun a b => strLe a b = true) l

/-- Python `str.lower()` (character-wise lowercasing). -/
def pyLower (s : String) : String := ⟨s.data.map Char.toLower⟩

/-- The whitespace characters stripped by Python `str.strip()`. -/
def isPySpace (c : Char) : Bool :=
  c = ' ' || c = '\t' || c = '\n' || c = '\r' || c = '\x0b' || c = '\x0c'

/-- Python `str.strip()`: drop leading and trailing whitespace. -/
def pyStrip (s : String) : String :=
  ⟨((s.data.dropWhile isPySpace).reverse.dropWhile isPySpace).reverse⟩

/-- Python `repr` of a string (single-quoted), as interpolated by f-strings. -/
def pyStrRepr (s : String) : String := "\x27" ++ s ++ "\x27"

/-- Python `repr` of a list of strings, as interpolated by f-strings. -/
def pyListRepr (l : List String) : String :=
  "[" ++ String.intercalate ", " (l.map pyStrRepr) ++ "]"

/-- A Python `dict[str, α]` as an association list; a later binding shadows
an earlier one. -/
abbrev Dict (α : Type) := List (String × α)

/-- Python `d.get(k)` / `d[k]` as an `Option`: the value of the last binding
of `k`, if any. -/
def dictGet {α : Type} : Dict α → String → Option α
  | [], _ => none
  | (k2, v) :: rest, k =>
    match dictGet rest k with
    | some v2 => some v2
    | none => if k2 = k then some v else none

/-- Python `set(d)`: the distinct keys of the dict. -/
def dictKeys {α : Type} (d : Dict α) : List String := (d.map Prod.fst).dedup

/-- The two shapes of `JointState.positions`: a dict from joint name to value
or a bare list of values. -/
inductive Positions (α : Type) where
  | dict (d : Dict α)
  | list (p : List α)
deriving DecidableEq

/-- `models.JointState`: positions plus the optional `joint_names` giving the
order of a list-form `positions`. -/
structure JointState (α : Type) where
  positions : Positions α
  joint_names : Option (List String) := none
deriving DecidableEq

/-- The distinct failure sites of the library (all of them `ValueError` or a
builtin exception in Python, distinguished here by site and payload). -/
inductive Err where
  | notFound
  | malformedInput
  | emptyResult (msg : String)
  | schemaErrorNoNames
  | schemaErrorLen (nameLen posLen : Nat)
  | schemaMismatch (msg : String)
  | keyError
  | validationErr (index expected actual : Nat)
  | unsupportedFormat (msg : String)
deriving DecidableEq

/-- The spec's SchemaError class: list-form state without names, or a
name/value length mismatch. -/
def Err.isSchemaError : Err → Bool
  | .schemaErrorNoNames => true
  | .schemaErrorLen _ _ => true
  | _ => false

/-- The spec's per-timestep validation error classes: SchemaError,
SchemaMismatch and ValidationError. -/
def Err.isValidationClass : Err → Bool
  | .schemaErrorNoNames => true
  | .schemaErrorLen _ _ => true
  | .schemaMismatch _ => true
  | .validationErr _ _ _ => true
  | _ => false

/-- `models.get_positions_dict`: normalize a `JointState` to a dict of joint
name to position.  A dict is returned as a (shallow copy of the) dict; a list
needs `joint_names` of the same length and is zipped with it. -/
def get_positions_dict {α : Type} (state : JointState α) : Except Err (Dict α) :=
  match state.positions with
  | .dict d => .ok d
  | .list p =>
    match state.joint_names with
    | none => .error .schemaErrorNoNames
    | some names =>
      if names.length ≠ p.length then .error (.schemaErrorLen names.length p.length)
      else .ok (names.zip p)

/-- The guard `set(d) == set(joint_names)` of `get_ordered_positions`. -/
def sameKeySet {α : Type} (d : Dict α) (jn : List String) : Bool :=
  jn.all (fun n => (dictKeys d).contains n) && (dictKeys d).all (fun k => jn.contains k)

/-- Python `sorted(expected - actual)`: the sorted distinct target names that
are absent from the state's dict. -/
def missingNames {α : Type} (d : Dict α) (jn : List String) : List String :=
  sortNames ((jn.filter (fun n => !(dictKeys d).contains n)).dedup)

/-- Python `sorted(actual - expected)`: the sorted distinct dict keys that are
absent from the target names. -/
def extraNames {α : Type} (d : Dict α) (jn : List String) : List String :=
  sortNames ((dictKeys d).filter (fun k => !jn.contains k))

/-- The message of the `ValueError` raised on a key-set mismatch, assembled as
in the source from the `missing:` and `extra:` parts. -/
def mismatchMsg (missing extra : List String) : String :=
  "Joint names do not match URDF: " ++ String.intercalate ", "
    ((if missing.isEmpty then [] else ["missing: " ++ pyListRepr missing]) ++
      (if extra.isEmpty then [] else ["extra: " ++ pyListRepr extra]))

/-- Python `[d[name] for name in joint_names]`, `none` meaning a `KeyError`. -/
def lookupAll {α : Type} (d : Dict α) : List String → Option (List α)
  | [] => some []
  | n :: ns =>
    match dictGet d n, lookupAll d ns with
    | some v, some vs => some (v :: vs)
    | _, _ => none

/-- `models.get_ordered_positions`: the state's values in the order of
`joint_names`, after the key-set check. -/
def get_ordered_positions {α : Type} (state : JointState α)
    (joint_names : List String) : Except Err (List α) :=
  match get_positions_dict state with
  | .error e => .error e
  | .ok d =>
    if sameKeySet d joint_names then
      match lookupAll d joint_names with
      | some row => .ok row
      | none => .error .keyError
    else
      .error (.schemaMismatch
        (mismatchMsg (missingNames d joint_names) (extraNames d joint_names)))

/-- `models.ACTUATED_JOINT_TYPES` (a frozenset used only for membership). -/
def ACTUATED_JOINT_TYPES : List String := ["revolute", "continuous", "prismatic"]

/-- One direct child element of the XML root: its tag and the two consumed
attributes (`name`, `type`), each possibly absent. -/
structure XmlChild where
  tag : String
  nameAttr : Option String
  typeAttr : Option String
deriving DecidableEq

/-- The outcome of `ET.parse` at a path: missing file, unparseable XML, or a
parsed root with its direct children. -/
inductive UrdfFile where
  | missing
  | malformed
  | parsed (children : List XmlChild)
deriving DecidableEq

/-- The kind computed per element: `(joint.get("type") or "").strip().lower()`. -/
def jointKind (j : XmlChild) : String := pyLower (pyStrip (j.typeAttr.getD ""))

/-- The body of the scan loop for one element: skip it when it has no name,
keep its name when its kind is actuated. -/
def scanJoint (joint : XmlChild) : Option String :=
  match joint.nameAttr with
  | none => none
  | some name =>
    if ACTUATED_JOINT_TYPES.contains (jointKind joint) then some name else none

/-- The names collected by the scan loop of `get_actuated_joint_names`:
`root.findall("joint")`, skip elements without a name, keep names whose kind
is actuated. -/
def actuatedOf (children : List XmlChild) : List String :=
  (children.filter (fun j => j.tag == "joint")).filterMap scanJoint

/-- The message of the empty-result `ValueError` of the parser. -/
def emptyResultMsg (path : String) : String :=
  "No actuated joints (revolute/continuous/prismatic) found in " ++ path

/-- `urdf_parser.get_actuated_joint_names`, over the pre-parsed file outcome. -/
def get_actuated_joint_names (path : String) (file : UrdfFile) :
    Except Err (List String) :=
  match file with
  | .missing => .error .notFound
  | .malformed => .error .malformedInput
  | .parsed children =>
    let names := actuatedOf children
    if names.isEmpty then .error (.emptyResult (emptyResultMsg path))
    else .ok names

/-- Stated from the spec, for comparison with `actuatedOf`: the document-order
subsequence of the direct child joint elements that carry a name and whose
trimmed, lowercased type is one of revolute, continuous or prismatic, mapped
to their names. -/
def actuatedSpec (children : List XmlChild) : List String :=
  (children.filter (fun j =>
      j.tag == "joint" && j.nameAttr.isSome &&
        (jointKind j == "revolute" || jointKind j == "continuous" ||
          jointKind j == "prismatic"))).filterMap (fun j => j.nameAttr)

/-- `writer.URDFTrajectoryWriter` instance state: the joint order loaded at
construction and its stored length. -/
structure URDFTrajectoryWriter where
  joint_names : List String
  num_joints : Nat
deriving DecidableEq

/-- The constructor of `URDFTrajectoryWriter`: load the joint order from the
URDF and store it together with its length. -/
def mkWriter (path : String) (file : UrdfFile) : Except Err URDFTrajectoryWriter :=
  match get_actuated_joint_names path file with
  | .error e => .error e
  | .ok ns => .ok ⟨ns, ns.length⟩

/-- `writer.URDFTrajectoryWriter._validate_state`: the ordered row plus the
defensive row-length check against the stored joint count. -/
def validate_state {α : Type} (w : URDFTrajectoryWriter) (state : JointState α)
    (index : Nat) : Except Err (List α) :=
  match get_ordered_positions state w.joint_names with
  | .error e => .error e
  | .ok row =>
    if row.length ≠ w.num_joints then
      .error (.validationErr index w.num_joints row.length)
    else .ok row

/-- The `enumerate` loop of `write`: validate every timestep in order,
collecting the rows, stopping at the first failure. -/
def validateFrom {α : Type} (w : URDFTrajectoryWriter) (i : Nat) :
    List (JointState α) → Except Err (List (List α))
  | [] => .ok []
  | s :: rest =>
    match validate_state w s i with
    | .error e => .error e
    | .ok row =>
      match validateFrom w (i + 1) rest with
      | .error e => .error e
      | .ok rows => .ok (row :: rows)

/-- Whether `csv.writer` must quote a field: it holds the delimiter, a quote
or a line break. -/
def csvNeedsQuote (s : String) : Bool :=
  s.data.any (fun c => c = ',' || c = '"' || c = '\n' || c = '\r')

/-- Double every quote of a field, per standard CSV escaping. -/
def csvEscape (s : String) : String :=
  ⟨s.data.foldr (fun c acc => if c = '"' then '"' :: '"' :: acc else c :: acc) []⟩

/-- One field as encoded by `csv.writer`. -/
def csvField (s : String) : String :=
  if csvNeedsQuote s then "\"" ++ csvEscape s ++ "\"" else s

/-- One line written by `csv.writer.writerow`: the encoded fields joined by
the delimiter. -/
def csvLine (fields : List String) : String :=
  String.intercalate "," (fields.map csvField)

/-- What `write` stores at a path: the logical content of the serialized
file (CSV lines, or the JSON document with its two keys). -/
inductive FileVal (α : Type) where
  | csvF (lines : List String)
  | jsonF (joint_names : List String) (timesteps : List (Dict α))
deriving DecidableEq

/-- An output path with its parent directory made explicit
(`Path(output_path).parent`). -/
structure OutPath where
  parent : String
  fileName : String
deriving DecidableEq

/-- The full output path. -/
def OutPath.full (p : OutPath) : String := p.parent ++ "/" ++ p.fileName

/-- The observable file-system state: existing directories and files. -/
structure FS (α : Type) where
  dirs : List String
  files : List (String × FileVal α)
deriving DecidableEq

/-- `path.parent.mkdir(parents=True, exist_ok=True)`. -/
def FS.mkdirParents {α : Type} (fs : FS α) (d : String) : FS α :=
  if fs.dirs.contains d then fs else { fs with dirs := d :: fs.dirs }

/-- Opening a path in mode `"w"` and writing content `v` (create or
overwrite). -/
def FS.putFile {α : Type} (fs : FS α) (p : String) (v : FileVal α) : FS α :=
  { fs with files := (p, v) :: fs.files.filter (fun e => e.1 != p) }

/-- The file stored at a path, if any. -/
def FS.readFile {α : Type} (fs : FS α) (p : String) : Option (FileVal α) :=
  fs.files.lookup p

/-- The message `f"Unsupported format: {format!r}. Use 'csv' or 'json'."`. -/
def unsupportedMsg (fmt : String) : String :=
  "Unsupported format: " ++ pyStrRepr fmt ++ ". Use " ++ pyStrRepr "csv" ++
    " or " ++ pyStrRepr "json" ++ "."

/-- `writer.URDFTrajectoryWriter.write`: create the parent directory, validate
all timesteps, then serialize in the requested format; the result is the
outcome paired with the final file-system state. -/
def write {α : Type} (w : URDFTrajectoryWriter) (render : α → String)
    (trajectory : List (JointState α)) (output_path : OutPath) (format : String)
    (fs : FS α) : Except Err Unit × FS α :=
  let fs1 := fs.mkdirParents output_path.parent
  match validateFrom w 0 trajectory with
  | .error e => (.error e, fs1)
  | .ok rows =>
    if format = "csv" then
      (.ok (), fs1.putFile output_path.full
        (.csvF (csvLine w.joint_names :: rows.map (fun r => csvLine (r.map render)))))
    else if format = "json" then
      (.ok (), fs1.putFile output_path.full
        (.jsonF w.joint_names (rows.map (fun r => w.joint_names.zip r))))
    else (.error (.unsupportedFormat (unsupportedMsg format)), fs1)

/-! ### String-comparison and sorting lemmas -/

theorem charsLe_total : ∀ x y, charsLe x y = true ∨ charsLe y x = true
  | [], _ => .inl rfl
  | _ :: _, [] => .inr rfl
  | a :: as, b :: bs => by
    rcases Nat.lt_trichotomy a.toNat b.toNat with h | h | h
    · exact .inl (by simp [charsLe, h])
    · rcases charsLe_total as bs with ih | ih
      · exact .inl (by simp [charsLe, h, ih])
      · exact .inr (by simp [charsLe, h, ih])
    · exact .inr (by simp [charsLe, h])

theorem charsLe_trans : ∀ x y z, charsLe x y = true → charsLe y z = true →
    charsLe x z = true
  | [], _, _, _, _ => rfl
  | _ :: _, [], _, h, _ => by simp [charsLe] at h
  | _ :: _, _ :: _, [], _, h => by simp [charsLe] at h
  | a :: as, b :: bs, c :: cs, h1, h2 => by
    unfold charsLe at h1 h2 ⊢
    rcases Nat.lt_trichotomy a.toNat b.toNat with hab | hab | hab
    · rcases Nat.lt_trichotomy b.toNat c.toNat with hbc | hbc | hbc
      · simp [Nat.lt_trans hab hbc]
      · simp [show a.toNat < c.toNat by omega]
      · rw [if_neg (Nat.lt_asymm hbc), if_pos hbc] at h2
        exact absurd h2 (by simp)
    · rw [if_neg (by omega), if_neg (by omega)] at h1
      rcases Nat.lt_trichotomy b.toNat c.toNat with hbc | hbc | hbc
      · simp [show a.toNat < c.toNat by omega]
      · rw [if_neg (by omega), if_neg (by omega)] at h2
        rw [if_neg (by omega), if_neg (by omega)]
        exact charsLe_trans as bs cs h1 h2
      · rw [if_neg (Nat.lt_asymm hbc), if_pos hbc] at h2
        exact absurd h2 (by simp)
    · rw [if_neg (Nat.lt_asymm hab), if_pos hab] at h1
      exact absurd h1 (by simp)

theorem charsLe_antisymm : ∀ x y, charsLe x y = true → charsLe y x = true → x = y
  | [], [], _, _ => rfl
  | [], _ :: _, _, h => by simp [charsLe] at h
  | _ :: _, [], h, _ => by simp [charsLe] at h
  | a :: as, b :: bs, h1, h2 => by
    unfold charsLe at h1 h2
    rcases Nat.lt_trichotomy a.toNat b.toNat with hab | hab | hab
    · rw [if_neg (Nat.lt_asymm hab), if_pos hab] at h2
      exact absurd h2 (by simp)
    · rw [if_neg (by omega), if_neg (by omega)] at h1
      rw [if_neg (by omega), if_neg (by omega)] at h2
      have hc : a = b := Char.eq_of_val_eq (UInt32.toNat.inj hab)
      rw [hc, charsLe_antisymm as bs h1 h2]
    · rw [if_neg (Nat.lt_asymm hab), if_pos hab] at h1
      exact absurd h1 (by simp)

theorem strLe_total (a b : String) : strLe a b = true ∨ strLe b a = true :=
  charsLe_total a.data b.data

theorem strLe_trans {a b c : String} (h1 : strLe a b = true) (h2 : strLe b c = true) :
    strLe a c = true :=
  charsLe_trans a.data b.data c.data h1 h2

theorem strLe_antisymm {a b : String} (h1 : strLe a b = true)
    (h2 : strLe b a = true) : a = b := by
  have h := charsLe_antisymm a.data b.data h1 h2
  cases a
  cases b
  exact congrArg String.mk h

theorem sortNames_sorted (l : List String) :
    List.Sorted (fun a b => strLe a b = true) (sortNames l) := by
  haveI : IsTotal String (fun a b => strLe a b = true) := ⟨strLe_total⟩
  haveI : IsTrans String (fun a b => strLe a b = true) :=
    ⟨fun _ _ _ => strLe_trans⟩
  exact List.sorted_insertionSort _ l

theorem sortNames_perm (l : List String) : (sortNames l).Perm l :=
  List.perm_insertionSort _ l

theorem sortNames_eq_of_perm {l1 l2 : List String} (h : l1.Perm l2) :
    sortNames l1 = sortNames l2 := by
  haveI : IsAntisymm String (fun a b => strLe a b = true) :=
    ⟨fun _ _ => strLe_antisymm⟩
  exact List.eq_of_perm_of_sorted
    ((sortNames_perm l1).trans (h.trans (sortNames_perm l2).symm))
    (sortNames_sorted l1) (sortNames_sorted l2)

theorem sortNames_mem {l : List String} {k : String} : k ∈ sortNames l ↔ k ∈ l :=
  (sortNames_perm l).mem_iff

theorem sortNames_nodup {l : List String} (h : l.Nodup) : (sortNames l).Nodup :=
  ((sortNames_perm l).nodup_iff).mpr h

theorem sortNames_eq_nil {l : List String} : sortNames l = [] ↔ l = [] := by
  constructor
  · intro h
    exact List.eq_nil_of_length_eq_zero
      ((sortNames_perm l).symm.length_eq.trans (by rw [h]; rfl))
  · intro h
    subst h
    rfl

/-! ### Dict lemmas -/

theorem contains_iff {l : List String} {k : String} : l.contains k = true ↔ k ∈ l :=
  List.contains_iff_exists_mem_beq.trans (by simp)

theorem dictGet_eq_none_iff {α : Type} (d : Dict α) (k : String) :
    dictGet d k = none ↔ k ∉ d.map Prod.fst := by
  induction d with
  | nil => simp [dictGet]
  | cons e rest ih =>
    obtain ⟨k2, v⟩ := e
    simp only [dictGet, List.map_cons, List.mem_cons]
    cases h : dictGet rest k with
    | some v2 =>
      have hk : k ∈ List.map Prod.fst rest := by
        by_contra hk
        have hnone := ih.mpr hk
        rw [h] at hnone
        exact Option.noConfusion hnone
      simp [hk]
    | none =>
      have hk : k ∉ List.map Prod.fst rest := ih.mp h
      by_cases hkk : k2 = k
      · subst hkk
        simp [hk]
      · simp only [if_neg hkk]
        constructor
        · intro _
          rintro (h2 | h2)
          · exact hkk h2.symm
          · exact hk h2
        · intro _
          trivial

theorem dictGet_isSome_iff {α : Type} (d : Dict α) (k : String) :
    (dictGet d k).isSome = true ↔ k ∈ dictKeys d := by
  rw [dictKeys, List.mem_dedup]
  cases h : dictGet d k with
  | none =>
    simp only [Option.isSome_none, Bool.false_eq_true, false_iff]
    exact (dictGet_eq_none_iff d k).mp h
  | some v =>
    simp only [Option.isSome_some, true_iff]
    by_contra hk
    have hnone := (dictGet_eq_none_iff d k).mpr hk
    rw [h] at hnone
    exact Option.noConfusion hnone

theorem dictKeys_nodup {α : Type} (d : Dict α) : (dictKeys d).Nodup :=
  List.nodup_dedup _

theorem dictKeys_mem_iff {α : Type} (d : Dict α) (k : String) :
    k ∈ dictKeys d ↔ k ∈ d.map Prod.fst := List.mem_dedup

/-- The last binding of a duplicated key wins: if position `j` is the last
occurrence of its key, `dictGet` returns the value stored there. -/
theorem dictGet_last {α : Type} :
    ∀ (d : Dict α) (j : Nat) (hj : j < d.length),
      (∀ j2 (hj2 : j2 < d.length), j < j2 → (d.get ⟨j2, hj2⟩).1 ≠ (d.get ⟨j, hj⟩).1) →
      dictGet d (d.get ⟨j, hj⟩).1 = some (d.get ⟨j, hj⟩).2
  | [], j, hj, _ => absurd hj (by simp)
  | e :: rest, 0, hj, hlast => by
    obtain ⟨k, v⟩ := e
    have hk : k ∉ rest.map Prod.fst := by
      intro hmem
      rcases List.mem_iff_get.mp hmem with ⟨⟨j2, hj2⟩, hget⟩
      rw [List.get_eq_getElem, List.getElem_map] at hget
      exact hlast (j2 + 1) (by simpa using Nat.succ_lt_succ hj2) (Nat.succ_pos j2)
        (by simpa using hget)
    have hnone : dictGet rest k = none := (dictGet_eq_none_iff rest k).mpr hk
    simp [dictGet, hnone]
  | e :: rest, j + 1, hj, hlast => by
    obtain ⟨k2, v2⟩ := e
    have hjr : j < rest.length := Nat.lt_of_succ_lt_succ hj
    have ih := dictGet_last rest j hjr (fun j2 hj2 hlt =>
      hlast (j2 + 1) (Nat.succ_lt_succ hj2) (Nat.succ_lt_succ hlt))
    simp only [List.get_cons_succ] at *
    simp only [List.get_eq_getElem] at ih
    simp [dictGet, ih]

theorem lookupAll_isSome {α : Type} (d : Dict α) :
    ∀ ns : List String, (∀ n ∈ ns, (dictGet d n).isSome = true) →
      ∃ row, lookupAll d ns = some row
  | [], _ => ⟨[], rfl⟩
  | n :: ns, h => by
    rcases Option.isSome_iff_exists.mp (h n (by simp)) with ⟨v, hv⟩
    rcases lookupAll_isSome d ns (fun m hm => h m (by simp [hm])) with ⟨row, hrow⟩
    exact ⟨v :: row, by simp [lookupAll, hv, hrow]⟩

theorem lookupAll_length {α : Type} (d : Dict α) :
    ∀ (ns : List String) (row : List α), lookupAll d ns = some row →
      row.length = ns.length
  | [], row, h => by simp [lookupAll] at h; simp [← h]
  | n :: ns, row, h => by
    simp only [lookupAll] at h
    cases hv : dictGet d n with
    | none => rw [hv] at h; exact Option.noConfusion h
    | some v =>
      rw [hv] at h
      cases hrow : lookupAll d ns with
      | none => rw [hrow] at h; exact Option.noConfusion h
      | some vs =>
        rw [hrow] at h
        have := lookupAll_length d ns vs hrow
        simp only [Option.some.injEq] at h
        rw [← h]
        simp [this]

theorem lookupAll_get {α : Type} (d : Dict α) :
    ∀ (ns : List String) (row : List α), lookupAll d ns = some row →
      ∀ (i : Nat) (hi : i < ns.length) (hr : i < row.length),
        dictGet d (ns.get ⟨i, hi⟩) = some (row.get ⟨i, hr⟩)
  | [], _, _, i, hi, _ => absurd hi (by simp)
  | n :: ns, row, h, i, hi, hr => by
    simp only [lookupAll] at h
    cases hv : dictGet d n with
    | none => rw [hv] at h; exact Option.noConfusion h
    | some v =>
      rw [hv] at h
      cases hrow : lookupAll d ns with
      | none => rw [hrow] at h; exact Option.noConfusion h
      | some vs =>
        rw [hrow] at h
        simp only [Option.some.injEq] at h
        subst h
        cases i with
        | zero => simpa using hv
        | succ i2 =>
          exact lookupAll_get d ns vs hrow i2 (Nat.lt_of_succ_lt_succ hi)
            (Nat.lt_of_succ_lt_succ hr)

theorem lookupAll_congr {α : Type} {d1 d2 : Dict α}
    (h : ∀ k, dictGet d1 k = dictGet d2 k) :
    ∀ ns : List String, lookupAll d1 ns = lookupAll d2 ns
  | [] => rfl
  | n :: ns => by
    simp only [lookupAll, h n, lookupAll_congr h ns]

/-! ### Key-set comparison and normalizer lemmas -/

theorem sameKeySet_iff {α : Type} (d : Dict α) (jn : List String) :
    sameKeySet d jn = true ↔ ∀ k, k ∈ dictKeys d ↔ k ∈ jn := by
  rw [sameKeySet, Bool.and_eq_true, List.all_eq_true, List.all_eq_true]
  constructor
  · rintro ⟨h1, h2⟩ k
    exact ⟨fun hk => contains_iff.mp (h2 k hk), fun hk => contains_iff.mp (h1 k hk)⟩
  · intro h
    exact ⟨fun n hn => contains_iff.mpr ((h n).mpr hn),
      fun k hk => contains_iff.mpr ((h k).mp hk)⟩

theorem missingNames_sorted {α : Type} (d : Dict α) (jn : List String) :
    List.Sorted (fun a b => strLe a b = true) (missingNames d jn) :=
  sortNames_sorted _

theorem missingNames_nodup {α : Type} (d : Dict α) (jn : List String) :
    (missingNames d jn).Nodup :=
  sortNames_nodup (List.nodup_dedup _)

theorem missingNames_mem {α : Type} (d : Dict α) (jn : List String) (k : String) :
    k ∈ missingNames d jn ↔ k ∈ jn ∧ k ∉ dictKeys d := by
  rw [missingNames, sortNames_mem, List.mem_dedup, List.mem_filter]
  simp [contains_iff]

theorem extraNames_sorted {α : Type} (d : Dict α) (jn : List String) :
    List.Sorted (fun a b => strLe a b = true) (extraNames d jn) :=
  sortNames_sorted _

theorem extraNames_nodup {α : Type} (d : Dict α) (jn : List String) :
    (extraNames d jn).Nodup :=
  sortNames_nodup ((dictKeys_nodup d).filter _)

theorem extraNames_mem {α : Type} (d : Dict α) (jn : List String) (k : String) :
    k ∈ extraNames d jn ↔ k ∈ dictKeys d ∧ k ∉ jn := by
  rw [extraNames, sortNames_mem, List.mem_filter]
  simp [contains_iff]

theorem gpd_error_isSchema {α : Type} {state : JointState α} {e : Err}
    (h : get_positions_dict state = .error e) : e.isSchemaError = true := by
  unfold get_positions_dict at h
  split at h
  · exact Except.noConfusion h
  · split at h
    · injection h with h
      rw [← h]
      rfl
    · split at h
      · injection h with h
        rw [← h]
        rfl
      · exact Except.noConfusion h

theorem gop_ok_of_keys {α : Type} (state : JointState α) (jn : List String)
    (d : Dict α) (hd : get_positions_dict state = .ok d)
    (hkeys : ∀ k, k ∈ dictKeys d ↔ k ∈ jn) :
    ∃ row, get_ordered_positions state jn = .ok row ∧ lookupAll d jn = some row := by
  have hset : sameKeySet d jn = true := (sameKeySet_iff d jn).mpr hkeys
  have hall : ∀ n ∈ jn, (dictGet d n).isSome = true := fun n hn =>
    (dictGet_isSome_iff d n).mpr ((hkeys n).mpr hn)
  rcases lookupAll_isSome d jn hall with ⟨row, hrow⟩
  refine ⟨row, ?_, hrow⟩
  unfold get_ordered_positions
  rw [hd]
  simp [hset, hrow]

theorem gop_mismatch_of_keys {α : Type} (state : JointState α) (jn : List String)
    (d : Dict α) (hd : get_positions_dict state = .ok d)
    (hkeys : ¬ ∀ k, k ∈ dictKeys d ↔ k ∈ jn) :
    get_ordered_positions state jn =
      .error (.schemaMismatch (mismatchMsg (missingNames d jn) (extraNames d jn))) := by
  have hset : sameKeySet d jn = false := by
    rcases hb : sameKeySet d jn with _ | _
    · rfl
    · exact absurd ((sameKeySet_iff d jn).mp hb) hkeys
  unfold get_ordered_positions
  rw [hd]
  simp [hset]

theorem gop_error_cases {α : Type} {state : JointState α} {jn : List String}
    {e : Err} (h : get_ordered_positions state jn = .error e) :
    e.isSchemaError = true ∨ ∃ m, e = .schemaMismatch m := by
  unfold get_ordered_positions at h
  cases hd : get_positions_dict state with
  | error e0 =>
    rw [hd] at h
    injection h with h
    rw [← h]
    exact .inl (gpd_error_isSchema hd)
  | ok d =>
    simp only [hd] at h
    by_cases hset : sameKeySet d jn = true
    · exfalso
      have hall : ∀ n ∈ jn, (dictGet d n).isSome = true := fun n hn =>
        (dictGet_isSome_iff d n).mpr (((sameKeySet_iff d jn).mp hset n).mpr hn)
      rcases lookupAll_isSome d jn hall with ⟨row, hrow⟩
      rw [if_pos hset, hrow] at h
      exact Except.noConfusion h
    · rw [if_neg hset] at h
      injection h with h
      exact .inr ⟨_, h.symm⟩

theorem gop_ok_length {α : Type} {state : JointState α} {jn : List String}
    {row : List α} (h : get_ordered_positions state jn = .ok row) :
    row.length = jn.length := by
  unfold get_ordered_positions at h
  cases hd : get_positions_dict state with
  | error e0 =>
    rw [hd] at h
    exact Except.noConfusion h
  | ok d =>
    simp only [hd] at h
    by_cases hset : sameKeySet d jn = true
    · rw [if_pos hset] at h
      cases hrow : lookupAll d jn with
      | none =>
        rw [hrow] at h
        exact Except.noConfusion h
      | some row2 =>
        rw [hrow] at h
        injection h with h
        rw [← h]
        exact lookupAll_length d jn row2 hrow
    · rw [if_neg hset] at h
      exact Except.noConfusion h

/-! ### Writer lemmas -/

theorem isSchemaError_isValidationClass {e : Err} (h : e.isSchemaError = true) :
    e.isValidationClass = true := by
  cases e <;> simp_all [Err.isSchemaError, Err.isValidationClass]

theorem validate_state_error_class {α : Type} {w : URDFTrajectoryWriter}
    {state : JointState α} {index : Nat} {e : Err}
    (h : validate_state w state index = .error e) : e.isValidationClass = true := by
  unfold validate_state at h
  cases hg : get_ordered_positions state w.joint_names with
  | error e0 =>
    rw [hg] at h
    injection h with h
    rw [← h]
    rcases gop_error_cases hg with hs | ⟨m, hm⟩
    · exact isSchemaError_isValidationClass hs
    · rw [hm]
      rfl
  | ok row =>
    simp only [hg] at h
    by_cases hlen : row.length ≠ w.num_joints
    · rw [if_pos hlen] at h
      injection h with h
      rw [← h]
      rfl
    · rw [if_neg hlen] at h
      exact Except.noConfusion h

theorem validate_state_ok_of_gop {α : Type} {w : URDFTrajectoryWriter}
    {state : JointState α} {index : Nat} {row : List α}
    (hn : w.num_joints = w.joint_names.length)
    (hg : get_ordered_positions state w.joint_names = .ok row) :
    validate_state w state index = .ok row := by
  unfold validate_state
  simp only [hg]
  rw [if_neg (by rw [hn, gop_ok_length hg]; exact fun h => h rfl)]

theorem validateFrom_ok_length {α : Type} (w : URDFTrajectoryWriter) :
    ∀ (traj : List (JointState α)) (i : Nat) (rows : List (List α)),
      validateFrom w i traj = .ok rows → rows.length = traj.length
  | [], _, rows, h => by
    injection h with h
    rw [← h]
    rfl
  | s :: rest, i, rows, h => by
    unfold validateFrom at h
    cases hv : validate_state w s i with
    | error e =>
      rw [hv] at h
      exact Except.noConfusion h
    | ok row =>
      rw [hv] at h
      cases hr : validateFrom w (i + 1) rest with
      | error e =>
        rw [hr] at h
        exact Except.noConfusion h
      | ok rows2 =>
        rw [hr] at h
        injection h with h
        rw [← h]
        simp [validateFrom_ok_length w rest (i + 1) rows2 hr]

theorem validateFrom_ok_get {α : Type} (w : URDFTrajectoryWriter) :
    ∀ (traj : List (JointState α)) (i : Nat) (rows : List (List α)),
      validateFrom w i traj = .ok rows →
      ∀ (k : Nat) (hk : k < traj.length) (hr : k < rows.length),
        validate_state w (traj.get ⟨k, hk⟩) (i + k) = .ok (rows.get ⟨k, hr⟩)
  | [], _, _, _, k, hk, _ => absurd hk (by simp)
  | s :: rest, i, rows, h, k, hk, hr => by
    unfold validateFrom at h
    cases hv : validate_state w s i with
    | error e =>
      rw [hv] at h
      exact Except.noConfusion h
    | ok row =>
      rw [hv] at h
      cases hrest : validateFrom w (i + 1) rest with
      | error e =>
        rw [hrest] at h
        exact Except.noConfusion h
      | ok rows2 =>
        rw [hrest] at h
        injection h with h
        subst h
        cases k with
        | zero =>
          simpa using hv
        | succ k2 =>
          have := validateFrom_ok_get w rest (i + 1) rows2 hrest k2
            (Nat.lt_of_succ_lt_succ hk) (Nat.lt_of_succ_lt_succ hr)
          simpa [Nat.add_assoc, Nat.add_comm 1 k2] using this

theorem validateFrom_error_of_fail {α : Type} (w : URDFTrajectoryWriter) :
    ∀ (traj : List (JointState α)) (i k : Nat) (s : JointState α) (e0 : Err),
      traj[k]? = some s → validate_state w s (i + k) = .error e0 →
      ∃ e, validateFrom w i traj = .error e ∧ e.isValidationClass = true
  | [], _, k, _, _, hk, _ => by simp at hk
  | s0 :: rest, i, k, s, e0, hk, hfail => by
    cases hv : validate_state w s0 i with
    | error e =>
      exact ⟨e, by simp [validateFrom, hv], validate_state_error_class hv⟩
    | ok row =>
      cases k with
      | zero =>
        simp only [List.getElem?_cons_zero, Option.some.injEq] at hk
        subst hk
        rw [Nat.add_zero] at hfail
        rw [hfail] at hv
        exact Except.noConfusion hv
      | succ k2 =>
        simp only [List.getElem?_cons_succ] at hk
        have hfail2 : validate_state w s (i + 1 + k2) = .error e0 := by
          rw [show i + 1 + k2 = i + (k2 + 1) by omega]
          exact hfail
        rcases validateFrom_error_of_fail w rest (i + 1) k2 s e0 hk hfail2 with
          ⟨e, he, hc⟩
        exact ⟨e, by simp [validateFrom, hv, he], hc⟩

/-! ### Congruence lemmas: equal-as-mappings dicts are interchangeable -/

theorem dictKeys_mem_congr {α : Type} {d1 d2 : Dict α}
    (h : ∀ k, dictGet d1 k = dictGet d2 k) (k : String) :
    k ∈ dictKeys d1 ↔ k ∈ dictKeys d2 := by
  rw [← dictGet_isSome_iff, ← dictGet_isSome_iff, h k]

theorem contains_congr {l1 l2 : List String} (h : ∀ k, k ∈ l1 ↔ k ∈ l2)
    (k : String) : l1.contains k = l2.contains k := by
  by_cases hk : k ∈ l2
  · rw [contains_iff.mpr hk, contains_iff.mpr ((h k).mpr hk)]
  · have h1 : k ∉ l1 := fun hm => hk ((h k).mp hm)
    rcases hb : l1.contains k with _ | _
    · rcases hb2 : l2.contains k with _ | _
      · rfl
      · exact absurd (contains_iff.mp hb2) hk
    · exact absurd (contains_iff.mp hb) h1

theorem sameKeySet_congr {α : Type} {d1 d2 : Dict α}
    (h : ∀ k, dictGet d1 k = dictGet d2 k) (jn : List String) :
    sameKeySet d1 jn = sameKeySet d2 jn := by
  by_cases h2 : sameKeySet d2 jn = true
  · rw [h2]
    exact (sameKeySet_iff d1 jn).mpr (fun k =>
      (dictKeys_mem_congr h k).trans ((sameKeySet_iff d2 jn).mp h2 k))
  · rcases hb : sameKeySet d1 jn with _ | _
    · rcases hb2 : sameKeySet d2 jn with _ | _
      · rfl
      · exact absurd hb2 h2
    · exact absurd ((sameKeySet_iff d2 jn).mpr (fun k =>
        (dictKeys_mem_congr h k).symm.trans ((sameKeySet_iff d1 jn).mp hb k))) h2

theorem missingNames_congr {α : Type} {d1 d2 : Dict α}
    (h : ∀ k, dictGet d1 k = dictGet d2 k) (jn : List String) :
    missingNames d1 jn = missingNames d2 jn := by
  unfold missingNames
  have hf : jn.filter (fun n => !(dictKeys d1).contains n) =
      jn.filter (fun n => !(dictKeys d2).contains n) :=
    List.filter_congr (fun x _ => by
      rw [contains_congr (dictKeys_mem_congr h) x])
  rw [hf]

theorem extraNames_congr {α : Type} {d1 d2 : Dict α}
    (h : ∀ k, dictGet d1 k = dictGet d2 k) (jn : List String) :
    extraNames d1 jn = extraNames d2 jn := by
  unfold extraNames
  exact sortNames_eq_of_perm (List.Perm.filter _
    ((List.perm_ext_iff_of_nodup (dictKeys_nodup d1) (dictKeys_nodup d2)).mpr
      (dictKeys_mem_congr h)))

theorem gop_dict_congr {α : Type} (d1 d2 : Dict α) (o1 o2 : Option (List String))
    (jn : List String) (h : ∀ k, dictGet d1 k = dictGet d2 k) :
    get_ordered_positions (⟨.dict d1, o1⟩ : JointState α) jn =
      get_ordered_positions (⟨.dict d2, o2⟩ : JointState α) jn := by
  have e1 : get_positions_dict (⟨.dict d1, o1⟩ : JointState α) = .ok d1 := rfl
  have e2 : get_positions_dict (⟨.dict d2, o2⟩ : JointState α) = .ok d2 := rfl
  unfold get_ordered_positions
  simp only [e1, e2]
  rw [sameKeySet_congr h jn, lookupAll_congr h jn, missingNames_congr h jn,
    extraNames_congr h jn]

/-! ### Parser lemmas -/

theorem contains_actuated (s : String) :
    ACTUATED_JOINT_TYPES.contains s =
      (s == "revolute" || s == "continuous" || s == "prismatic") := by
  simp [ACTUATED_JOINT_TYPES, List.contains_cons, Bool.or_assoc,
    Bool.beq_eq_decide_eq]

theorem actuatedOf_eq_spec : ∀ children : List XmlChild,
    actuatedOf children = actuatedSpec children
  | [] => rfl
  | j :: rest => by
    have ih := actuatedOf_eq_spec rest
    unfold actuatedOf actuatedSpec at ih ⊢
    rw [List.filter_cons, List.filter_cons]
    by_cases htag : (j.tag == "joint") = true
    · rw [if_pos htag]
      rcases hname : j.nameAttr with _ | name
      · rw [if_neg (by simp [hname])]
        simp only [List.filterMap_cons, scanJoint, hname]
        exact ih
      · by_cases hkind : ACTUATED_JOINT_TYPES.contains (jointKind j) = true
        · rw [if_pos (by
            simp only [htag, hname, Option.isSome_some, Bool.true_and]
            rw [← contains_actuated]
            exact hkind)]
          simp only [List.filterMap_cons, scanJoint, hname, hkind, if_true]
          rw [ih]
        · have hk2 : ACTUATED_JOINT_TYPES.contains (jointKind j) = false := by
            rcases hc : ACTUATED_JOINT_TYPES.contains (jointKind j) with _ | _
            · rfl
            · exact absurd hc hkind
          rw [if_neg (by
            simp only [htag, hname, Option.isSome_some, Bool.true_and]
            rw [← contains_actuated, hk2]
            exact Bool.false_ne_true)]
          simp only [List.filterMap_cons, scanJoint, hname, hk2, if_false]
          exact ih
    · rw [if_neg htag, if_neg (by simp [htag])]
      exact ih

theorem filterMap_sublist_of_sub {β γ : Type} (f g : β → Option γ)
    (hfg : ∀ a, f a = none ∨ f a = g a) :
    ∀ l : List β, List.Sublist (l.filterMap f) (l.filterMap g)
  | [] => List.Sublist.slnil
  | a :: l => by
    rw [List.filterMap_cons, List.filterMap_cons]
    rcases hfg a with h | h
    · rw [h]
      cases g a with
      | none => exact filterMap_sublist_of_sub f g hfg l
      | some c => exact (filterMap_sublist_of_sub f g hfg l).cons c
    · rw [h]
      cases g a with
      | none => exact filterMap_sublist_of_sub f g hfg l
      | some c => exact (filterMap_sublist_of_sub f g hfg l).cons₂ c

theorem gajn_parsed_ok {path : String} {children : List XmlChild}
    {ns : List String}
    (h : get_actuated_joint_names path (.parsed children) = .ok ns) :
    ns = actuatedOf children ∧ actuatedOf children ≠ [] := by
  simp only [get_actuated_joint_names] at h
  by_cases he : (actuatedOf children).isEmpty = true
  · rw [if_pos he] at h
    exact Except.noConfusion h
  · rw [if_neg he] at h
    injection h with h
    exact ⟨h.symm, fun hnil => he (by rw [hnil]; rfl)⟩

theorem gajn_parsed_empty {path : String} {children : List XmlChild}
    (h : actuatedOf children = []) :
    get_actuated_joint_names path (.parsed children) =
      .error (.emptyResult (emptyResultMsg path)) := by
  simp only [get_actuated_joint_names]
  rw [if_pos (by rw [h]; rfl)]

/-! ### File-system lemmas -/

theorem mkdirParents_files {α : Type} (fs : FS α) (d : String) :
    (fs.mkdirParents d).files = fs.files := by
  unfold FS.mkdirParents
  split <;> rfl

theorem readFile_putFile {α : Type} (fs : FS α) (p : String) (v : FileVal α) :
    (fs.putFile p v).readFile p = some v := by
  unfold FS.putFile FS.readFile
  simp [List.lookup]

/-! ### Claim theorems -/

/-- C1: for every JointState whose key set (after `get_positions_dict`) equals
the set of names in the target order, `get_ordered_positions` succeeds and
returns one value per name in exactly the target order's sequence (duplicated
target names each independently look up the same mapping value), and for two
mapping-form states equal as mappings the output is identical regardless of
insertion order. -/
theorem c1_to_ordered_follows_target {α : Type} :
    (∀ (state : JointState α) (jn : List String) (d : Dict α),
      get_positions_dict state = .ok d →
      (∀ k, k ∈ dictKeys d ↔ k ∈ jn) →
      ∃ row, get_ordered_positions state jn = .ok row ∧
        row.length = jn.length ∧
        (∀ (i : Nat) (hi : i < jn.length) (hr : i < row.length),
          dictGet d (jn.get ⟨i, hi⟩) = some (row.get ⟨i, hr⟩)) ∧
        (∀ (i j : Nat) (hi : i < jn.length) (hj : j < jn.length)
          (hi2 : i < row.length) (hj2 : j < row.length),
          jn.get ⟨i, hi⟩ = jn.get ⟨j, hj⟩ → row.get ⟨i, hi2⟩ = row.get ⟨j, hj2⟩)) ∧
    (∀ (d1 d2 : Dict α) (o1 o2 : Option (List String)) (jn : List String),
      (∀ k, dictGet d1 k = dictGet d2 k) →
      get_ordered_positions (⟨.dict d1, o1⟩ : JointState α) jn =
        get_ordered_positions (⟨.dict d2, o2⟩ : JointState α) jn) := by
  constructor
  · intro state jn d hd hkeys
    rcases gop_ok_of_keys state jn d hd hkeys with ⟨row, hok, hrow⟩
    refine ⟨row, hok, lookupAll_length d jn row hrow,
      lookupAll_get d jn row hrow, ?_⟩
    intro i j hi hj hi2 hj2 hnm
    have g1 := lookupAll_get d jn row hrow i hi hi2
    have g2 := lookupAll_get d jn row hrow j hj hj2
    rw [hnm] at g1
    rw [g1] at g2
    exact Option.some.inj g2
  · intro d1 d2 o1 o2 jn h
    exact gop_dict_congr d1 d2 o1 o2 jn h

/-- Witness for C1: a two-joint mapping state with insertion order opposite to
the target order. -/
theorem c1_witness :
    ∃ row,
      get_ordered_positions (⟨.dict [("b", 2), ("a", 1)], none⟩ : JointState Int)
        ["a", "b"] = .ok row ∧
      row.length = (["a", "b"] : List String).length ∧
      (∀ (i : Nat) (hi : i < (["a", "b"] : List String).length) (hr : i < row.length),
        dictGet ([("b", 2), ("a", 1)] : Dict Int)
          ((["a", "b"] : List String).get ⟨i, hi⟩) = some (row.get ⟨i, hr⟩)) ∧
      (∀ (i j : Nat) (hi : i < (["a", "b"] : List String).length)
        (hj : j < (["a", "b"] : List String).length) (hi2 : i < row.length)
        (hj2 : j < row.length),
        (["a", "b"] : List String).get ⟨i, hi⟩ =
          (["a", "b"] : List String).get ⟨j, hj⟩ →
        row.get ⟨i, hi2⟩ = row.get ⟨j, hj2⟩) :=
  c1_to_ordered_follows_target.1 ⟨.dict [("b", 2), ("a", 1)], none⟩ ["a", "b"]
    [("b", 2), ("a", 1)] rfl
    (by
      intro k
      have hk : dictKeys ([("b", 2), ("a", 1)] : Dict Int) = ["b", "a"] := by decide
      rw [hk]
      constructor
      · intro h
        simp only [List.mem_cons, List.not_mem_nil, or_false] at h ⊢
        tauto
      · intro h
        simp only [List.mem_cons, List.not_mem_nil, or_false] at h ⊢
        tauto)

/-- C2: when the key set of the normalized state differs from the target
order's set of names, `get_ordered_positions` fails with the SchemaMismatch
message assembled from the sorted missing names and the sorted extra names,
each labeled segment present exactly when its list is non-empty. -/
theorem c2_to_ordered_mismatch {α : Type} (state : JointState α)
    (jn : List String) (d : Dict α) (hd : get_positions_dict state = .ok d)
    (hne : ¬ ∀ k, k ∈ dictKeys d ↔ k ∈ jn) :
    ∃ missing extra,
      get_ordered_positions state jn =
        .error (.schemaMismatch (mismatchMsg missing extra)) ∧
      List.Sorted (fun a b => strLe a b = true) missing ∧ missing.Nodup ∧
      (∀ k, k ∈ missing ↔ k ∈ jn ∧ k ∉ dictKeys d) ∧
      List.Sorted (fun a b => strLe a b = true) extra ∧ extra.Nodup ∧
      (∀ k, k ∈ extra ↔ k ∈ dictKeys d ∧ k ∉ jn) ∧
      (missing ≠ [] ∨ extra ≠ []) := by
  refine ⟨missingNames d jn, extraNames d jn,
    gop_mismatch_of_keys state jn d hd hne,
    missingNames_sorted d jn, missingNames_nodup d jn,
    fun k => missingNames_mem d jn k,
    extraNames_sorted d jn, extraNames_nodup d jn,
    fun k => extraNames_mem d jn k, ?_⟩
  rcases not_forall.mp hne with ⟨k, hk⟩
  have hcases : (k ∈ dictKeys d ∧ k ∉ jn) ∨ (k ∈ jn ∧ k ∉ dictKeys d) := by
    tauto
  rcases hcases with ⟨h1, h2⟩ | ⟨h1, h2⟩
  · exact .inr (List.ne_nil_of_mem ((extraNames_mem d jn k).mpr ⟨h1, h2⟩))
  · exact .inl (List.ne_nil_of_mem ((missingNames_mem d jn k).mpr ⟨h1, h2⟩))

/-- Witness for C2: state with keys containing only a, target order a, b. -/
theorem c2_witness :
    ∃ missing extra,
      get_ordered_positions (⟨.dict [("a", 1)], none⟩ : JointState Int)
        ["a", "b"] = .error (.schemaMismatch (mismatchMsg missing extra)) ∧
      List.Sorted (fun a b => strLe a b = true) missing ∧ missing.Nodup ∧
      (∀ k, k ∈ missing ↔ k ∈ (["a", "b"] : List String) ∧
        k ∉ dictKeys ([("a", 1)] : Dict Int)) ∧
      List.Sorted (fun a b => strLe a b = true) extra ∧ extra.Nodup ∧
      (∀ k, k ∈ extra ↔ k ∈ dictKeys ([("a", 1)] : Dict Int) ∧
        k ∉ (["a", "b"] : List String)) ∧
      (missing ≠ [] ∨ extra ≠ []) :=
  c2_to_ordered_mismatch (⟨.dict [("a", 1)], none⟩ : JointState Int) ["a", "b"]
    [("a", 1)] rfl
    (fun hall =>
      (by decide : ¬ ("b" ∈ dictKeys ([("a", 1)] : Dict Int)))
        ((hall "b").mpr (by simp)))

/-- C3: `get_positions_dict` returns the stored mapping for dict-form states,
zips names with values for well-formed list-form states, and fails (with a
SchemaError) exactly when the list form lacks a name sequence or the two
sequences differ in length. -/
theorem c3_to_mapping {α : Type} :
    (∀ (d : Dict α) (o : Option (List String)),
      get_positions_dict (⟨.dict d, o⟩ : JointState α) = .ok d) ∧
    (∀ (p : List α) (names : List String), names.length = p.length →
      get_positions_dict (⟨.list p, some names⟩ : JointState α) =
        .ok (names.zip p)) ∧
    (∀ state : JointState α,
      (∃ e, get_positions_dict state = .error e) ↔
        ∃ p, state.positions = .list p ∧
          (state.joint_names = none ∨
            ∃ names, state.joint_names = some names ∧
              names.length ≠ p.length)) ∧
    (∀ (state : JointState α) (e : Err),
      get_positions_dict state = .error e → e.isSchemaError = true) := by
  refine ⟨fun d o => rfl, ?_, ?_, fun state e he => gpd_error_isSchema he⟩
  · intro p names h
    simp [get_positions_dict, h]
  · intro state
    constructor
    · rintro ⟨e, he⟩
      obtain ⟨pos, jnames⟩ := state
      cases pos with
      | dict d => exact absurd he (by simp [get_positions_dict])
      | list p =>
        refine ⟨p, rfl, ?_⟩
        cases jnames with
        | none => exact .inl rfl
        | some names =>
          refine .inr ⟨names, rfl, ?_⟩
          intro hlen
          rw [show (⟨.list p, some names⟩ : JointState α) =
            ⟨.list p, some names⟩ from rfl] at he
          simp only [get_positions_dict] at he
          rw [if_neg (fun hne => hne hlen)] at he
          exact Except.noConfusion he
    · rintro ⟨p, hp, hno | ⟨names, hsome, hlen⟩⟩
      · exact ⟨.schemaErrorNoNames, by simp only [get_positions_dict, hp, hno]⟩
      · exact ⟨.schemaErrorLen names.length p.length, by
          simp only [get_positions_dict, hp, hsome]
          rw [if_pos hlen]⟩

/-- Witness for C3: a two-element list state zipped with its names. -/
theorem c3_witness :
    get_positions_dict (⟨.list [1, 2], some ["a", "b"]⟩ : JointState Int) =
      .ok ((["a", "b"] : List String).zip [1, 2]) :=
  c3_to_mapping.2.1 [1, 2] ["a", "b"] rfl

/-- C10: a list-form state whose (equal-length) name sequence repeats a name
still normalizes successfully; the repeated name resolves to the value at its
last occurrence, and the mapping has fewer entries than the sequences. -/
theorem c10_duplicate_names_last_wins {α : Type} (names : List String)
    (p : List α) (hlen : names.length = p.length) (hdup : ¬ names.Nodup) :
    get_positions_dict (⟨.list p, some names⟩ : JointState α) =
      .ok (names.zip p) ∧
    (dictKeys (names.zip p)).length < names.length ∧
    (∀ (j : Nat) (hj : j < names.length) (hjp : j < p.length),
      (∀ (j2 : Nat) (hj2 : j2 < names.length), j < j2 →
        names.get ⟨j2, hj2⟩ ≠ names.get ⟨j, hj⟩) →
      dictGet (names.zip p) (names.get ⟨j, hj⟩) = some (p.get ⟨j, hjp⟩)) := by
  refine ⟨by simp [get_positions_dict, hlen], ?_, ?_⟩
  · have hmap : (names.zip p).map Prod.fst = names :=
      List.map_fst_zip names p (le_of_eq hlen)
    rw [dictKeys, hmap]
    have hle : names.dedup.length ≤ names.length :=
      (List.dedup_sublist names).length_le
    rcases Nat.lt_or_ge names.dedup.length names.length with h | h
    · exact h
    · exact absurd ((List.dedup_sublist names).eq_of_length
        (le_antisymm hle h) ▸ List.nodup_dedup names) hdup
  · intro j hj hjp hlast
    have hjz : j < (names.zip p).length := by
      rw [List.length_zip]
      omega
    have hpair : (names.zip p).get ⟨j, hjz⟩ =
        (names.get ⟨j, hj⟩, p.get ⟨j, hjp⟩) := by
      simp [List.get_eq_getElem, List.getElem_zip]
    have hlast2 : ∀ (j2 : Nat) (hj2 : j2 < (names.zip p).length), j < j2 →
        ((names.zip p).get ⟨j2, hj2⟩).1 ≠ ((names.zip p).get ⟨j, hjz⟩).1 := by
      intro j2 hj2 hlt
      have hj2n : j2 < names.length := by
        rw [List.length_zip] at hj2
        omega
      have hj2p : j2 < p.length := by
        rw [List.length_zip] at hj2
        omega
      have hp2 : (names.zip p).get ⟨j2, hj2⟩ =
          (names.get ⟨j2, hj2n⟩, p.get ⟨j2, hj2p⟩) := by
        simp [List.get_eq_getElem, List.getElem_zip]
      rw [hp2, hpair]
      exact hlast j2 hj2n hlt
    have hfin := dictGet_last (names.zip p) j hjz hlast2
    rw [hpair] at hfin
    exact hfin

/-- C6: for every parseable document, a successful scan returns exactly the
document-order subsequence of direct child joint elements with a name whose
trimmed, lowercased type is revolute, continuous or prismatic; elements
without a name or with an unrecognized type are skipped, duplicates kept. -/
theorem c6_actuated_scan (children : List XmlChild) (path : String)
    (ns : List String)
    (h : get_actuated_joint_names path (.parsed children) = .ok ns) :
    ns = actuatedSpec children ∧ ns ≠ [] ∧
      List.Sublist ns (children.filterMap XmlChild.nameAttr) := by
  rcases gajn_parsed_ok h with ⟨hns, hne⟩
  subst hns
  refine ⟨actuatedOf_eq_spec children, hne, ?_⟩
  have hfg : ∀ a, scanJoint a = none ∨ scanJoint a = a.nameAttr := by
    intro a
    cases hn : a.nameAttr with
    | none => exact .inl (by simp only [scanJoint, hn])
    | some name =>
      by_cases hc : ACTUATED_JOINT_TYPES.contains (jointKind a) = true
      · exact .inr (by simp only [scanJoint, hn, hc, if_true])
      · refine .inl (by
          simp only [scanJoint, hn]
          rw [if_neg hc])
  exact ((List.filter_sublist children).filterMap scanJoint).trans
    (filterMap_sublist_of_sub scanJoint XmlChild.nameAttr hfg children)

/-- Witness for C6: revolute, fixed and continuous joints; the scan returns
the first and third names. -/
theorem c6_witness :
    (["j1", "j3"] : List String) =
      actuatedSpec [⟨"joint", some "j1", some "revolute"⟩,
        ⟨"joint", some "j2", some "fixed"⟩,
        ⟨"joint", some "j3", some "continuous"⟩] ∧
    (["j1", "j3"] : List String) ≠ [] ∧
    List.Sublist (["j1", "j3"] : List String)
      (([⟨"joint", some "j1", some "revolute"⟩,
        ⟨"joint", some "j2", some "fixed"⟩,
        ⟨"joint", some "j3", some "continuous"⟩] : List XmlChild).filterMap
          XmlChild.nameAttr) :=
  c6_actuated_scan [⟨"joint", some "j1", some "revolute"⟩,
    ⟨"joint", some "j2", some "fixed"⟩,
    ⟨"joint", some "j3", some "continuous"⟩] "robot.urdf" ["j1", "j3"] rfl

/-- C7: the parser fails with NotFound exactly for a missing path, with
MalformedInput exactly for unparseable XML, and with EmptyResult — whose
message names the source path — exactly when the parsed document yields zero
actuated joints; in particular every document whose joints are all of type
fixed fails with EmptyResult. -/
theorem c7_parser_errors :
    (∀ (path : String) (file : UrdfFile),
      get_actuated_joint_names path file = .error .notFound ↔
        file = .missing) ∧
    (∀ (path : String) (file : UrdfFile),
      get_actuated_joint_names path file = .error .malformedInput ↔
        file = .malformed) ∧
    (∀ (path : String) (file : UrdfFile),
      (∃ msg, get_actuated_joint_names path file = .error (.emptyResult msg) ∧
        ∃ pre, msg = pre ++ path) ↔
      ∃ children, file = .parsed children ∧ actuatedOf children = []) ∧
    (∀ (path : String) (children : List XmlChild),
      (∀ j ∈ children, j.tag = "joint" → jointKind j = "fixed") →
      get_actuated_joint_names path (.parsed children) =
        .error (.emptyResult (emptyResultMsg path))) := by
  refine ⟨?_, ?_, ?_, ?_⟩
  · intro path file
    constructor
    · intro h
      cases file with
      | missing => rfl
      | malformed =>
        injection h with h
        exact Err.noConfusion h
      | parsed children =>
        exfalso
        simp only [get_actuated_joint_names] at h
        by_cases he : (actuatedOf children).isEmpty = true
        · rw [if_pos he] at h
          injection h with h
          exact Err.noConfusion h
        · rw [if_neg he] at h
          exact Except.noConfusion h
    · intro h
      subst h
      rfl
  · intro path file
    constructor
    · intro h
      cases file with
      | malformed => rfl
      | missing =>
        injection h with h
        exact Err.noConfusion h
      | parsed children =>
        exfalso
        simp only [get_actuated_joint_names] at h
        by_cases he : (actuatedOf children).isEmpty = true
        · rw [if_pos he] at h
          injection h with h
          exact Err.noConfusion h
        · rw [if_neg he] at h
          exact Except.noConfusion h
    · intro h
      subst h
      rfl
  · intro path file
    constructor
    · rintro ⟨msg, hmsg, pre, hpre⟩
      cases file with
      | missing =>
        injection hmsg with hmsg
        exact Err.noConfusion hmsg
      | malformed =>
        injection hmsg with hmsg
        exact Err.noConfusion hmsg
      | parsed children =>
        refine ⟨children, rfl, ?_⟩
        simp only [get_actuated_joint_names] at hmsg
        by_cases he : (actuatedOf children).isEmpty = true
        · exact List.isEmpty_iff.mp he
        · rw [if_neg he] at hmsg
          exact Except.noConfusion hmsg
    · rintro ⟨children, hf, hempty⟩
      subst hf
      exact ⟨emptyResultMsg path, gajn_parsed_empty hempty,
        "No actuated joints (revolute/continuous/prismatic) found in ", rfl⟩
  · intro path children hfix
    apply gajn_parsed_empty
    unfold actuatedOf
    rw [List.filterMap_eq_nil_iff]
    intro a ha
    rcases List.mem_filter.mp ha with ⟨hmem, htag⟩
    have hfx : jointKind a = "fixed" := hfix a hmem (by simpa using htag)
    cases hn : a.nameAttr with
    | none => simp only [scanJoint, hn]
    | some name =>
      simp only [scanJoint, hn, hfx]
      rw [if_neg (by decide)]

/-- Witness for C7: a single fixed joint produces EmptyResult with the
path-naming message. -/
theorem c7_witness :
    get_actuated_joint_names "robot.urdf"
      (.parsed [⟨"joint", some "j1", some "fixed"⟩]) =
      .error (.emptyResult (emptyResultMsg "robot.urdf")) :=
  c7_parser_errors.2.2.2 "robot.urdf" [⟨"joint", some "j1", some "fixed"⟩]
    (by decide)

/-- C4: when some timestep fails validation, `write` returns that class of
error, leaves the file map untouched (no partial output file, pre-existing
file unchanged), because all rows are validated before any file write. -/
theorem c4_all_or_nothing {α : Type} (w : URDFTrajectoryWriter)
    (render : α → String) (traj : List (JointState α)) (out : OutPath)
    (format : String) (fs : FS α)
    (hfail : ∃ (k : Nat) (s : JointState α) (e0 : Err),
      traj[k]? = some s ∧ validate_state w s k = .error e0) :
    ∃ e, write w render traj out format fs =
        (.error e, fs.mkdirParents out.parent) ∧
      e.isValidationClass = true ∧
      (write w render traj out format fs).2.files = fs.files ∧
      (write w render traj out format fs).2.readFile out.full =
        fs.readFile out.full := by
  rcases hfail with ⟨k, s, e0, hk, hv⟩
  have hv2 : validate_state w s (0 + k) = .error e0 := by
    rwa [Nat.zero_add]
  rcases validateFrom_error_of_fail w traj 0 k s e0 hk hv2 with ⟨e, he, hc⟩
  have hw : write w render traj out format fs =
      (.error e, fs.mkdirParents out.parent) := by
    unfold write
    simp only [he]
  refine ⟨e, hw, hc, ?_, ?_⟩
  · rw [hw]
    exact mkdirParents_files fs out.parent
  · rw [hw]
    unfold FS.readFile
    rw [mkdirParents_files fs out.parent]

/-- Witness for C4: one list-form timestep without names fails, and the file
map of a pre-populated file system is unchanged. -/
theorem c4_witness :
    ∃ e, write (⟨["a"], 1⟩ : URDFTrajectoryWriter) (fun _ : Int => "")
        [⟨.list [1], none⟩] ⟨"out", "t.csv"⟩ "csv"
        ⟨[], [("out/t.csv", .csvF ["old"])]⟩ =
        (.error e, FS.mkdirParents
          (⟨[], [("out/t.csv", .csvF ["old"])]⟩ : FS Int) "out") ∧
      e.isValidationClass = true ∧
      (write (⟨["a"], 1⟩ : URDFTrajectoryWriter) (fun _ : Int => "")
        [⟨.list [1], none⟩] ⟨"out", "t.csv"⟩ "csv"
        ⟨[], [("out/t.csv", .csvF ["old"])]⟩).2.files =
        (⟨[], [("out/t.csv", .csvF ["old"])]⟩ : FS Int).files ∧
      (write (⟨["a"], 1⟩ : URDFTrajectoryWriter) (fun _ : Int => "")
        [⟨.list [1], none⟩] ⟨"out", "t.csv"⟩ "csv"
        ⟨[], [("out/t.csv", .csvF ["old"])]⟩).2.readFile
          (OutPath.full ⟨"out", "t.csv"⟩) =
        (⟨[], [("out/t.csv", .csvF ["old"])]⟩ : FS Int).readFile
          (OutPath.full ⟨"out", "t.csv"⟩) :=
  c4_all_or_nothing ⟨["a"], 1⟩ (fun _ : Int => "") [⟨.list [1], none⟩]
    ⟨"out", "t.csv"⟩ "csv" ⟨[], [("out/t.csv", .csvF ["old"])]⟩
    ⟨0, ⟨.list [1], none⟩, .schemaErrorNoNames, rfl, rfl⟩

/-- C5 counterexample: with format yaml, (1) an all-valid empty trajectory
does fail with UnsupportedFormat but the parent directory has been created,
so file-system state is modified; (2) a trajectory with an invalid timestep
fails with the validation error, not UnsupportedFormat. -/
theorem c5_counterexample :
    (∃ fs2 : FS Int,
      write (⟨["a"], 1⟩ : URDFTrajectoryWriter) (fun _ : Int => "") []
          ⟨"out", "t.csv"⟩ "yaml" ⟨[], []⟩ =
        (.error (.unsupportedFormat (unsupportedMsg "yaml")), fs2) ∧
      fs2.dirs ≠ ([] : List String)) ∧
    (∃ e, (write (⟨["a"], 1⟩ : URDFTrajectoryWriter) (fun _ : Int => "")
        [⟨.list [1], none⟩] ⟨"out", "t.csv"⟩ "yaml" ⟨[], []⟩).1 =
          .error e ∧
      ∀ m, e ≠ .unsupportedFormat m) := by
  constructor
  · refine ⟨⟨["out"], []⟩, rfl, by decide⟩
  · refine ⟨.schemaErrorNoNames, rfl, ?_⟩
    intro m h
    exact Err.noConfusion h

/-- C5 (amended): for a trajectory whose timesteps all validate and a format
token other than csv and json, `write` fails with UnsupportedFormat naming
the received value and both accepted values, and the file map is unchanged
(no output file is created); the parent directory however has already been
created by that point. -/
theorem c5_amended_unsupported_format {α : Type} (w : URDFTrajectoryWriter)
    (render : α → String) (traj : List (JointState α)) (out : OutPath)
    (format : String) (fs : FS α) (rows : List (List α))
    (hval : validateFrom w 0 traj = .ok rows)
    (hcsv : format ≠ "csv") (hjson : format ≠ "json") :
    write w render traj out format fs =
      (.error (.unsupportedFormat (unsupportedMsg format)),
        fs.mkdirParents out.parent) ∧
    (write w render traj out format fs).2.files = fs.files ∧
    (∃ s1 s2 s3 s4, unsupportedMsg format =
      s1 ++ pyStrRepr format ++ s2 ++ pyStrRepr "csv" ++ s3 ++
        pyStrRepr "json" ++ s4) := by
  have hw : write w render traj out format fs =
      (.error (.unsupportedFormat (unsupportedMsg format)),
        fs.mkdirParents out.parent) := by
    unfold write
    simp only [hval]
    rw [if_neg hcsv, if_neg hjson]
  refine ⟨hw, ?_, "Unsupported format: ", ". Use ", " or ", ".", rfl⟩
  rw [hw]
  exact mkdirParents_files fs out.parent

/-- Witness for C5 (amended): empty trajectory, format yaml. -/
theorem c5_witness :
    write (⟨["a"], 1⟩ : URDFTrajectoryWriter) (fun _ : Int => "") []
        ⟨"out", "t.csv"⟩ "yaml" ⟨[], []⟩ =
      (.error (.unsupportedFormat (unsupportedMsg "yaml")),
        FS.mkdirParents (⟨[], []⟩ : FS Int) "out") ∧
    (write (⟨["a"], 1⟩ : URDFTrajectoryWriter) (fun _ : Int => "") []
        ⟨"out", "t.csv"⟩ "yaml" ⟨[], []⟩).2.files =
      (⟨[], []⟩ : FS Int).files ∧
    (∃ s1 s2 s3 s4, unsupportedMsg "yaml" =
      s1 ++ pyStrRepr "yaml" ++ s2 ++ pyStrRepr "csv" ++ s3 ++
        pyStrRepr "json" ++ s4) :=
  c5_amended_unsupported_format ⟨["a"], 1⟩ (fun _ : Int => "") []
    ⟨"out", "t.csv"⟩ "yaml" ⟨[], []⟩ [] rfl (by decide) (by decide)

/-- C8: for a trajectory whose timesteps all validate, writing as CSV stores
a file of exactly N+1 encoded lines, the first being the joint-name header
and line k+1 the k-th validated row; writing as JSON stores the joint names
under the first key and exactly N timestep objects, each zipping the joint
names with the k-th row in joint order. -/
theorem c8_round_trip {α : Type} (w : URDFTrajectoryWriter)
    (render : α → String) (traj : List (JointState α)) (out : OutPath)
    (fs : FS α) (rows : List (List α))
    (hval : validateFrom w 0 traj = .ok rows) :
    (∀ (k : Nat) (hk : k < traj.length) (hr : k < rows.length),
      validate_state w (traj.get ⟨k, hk⟩) k = .ok (rows.get ⟨k, hr⟩)) ∧
    (∃ lines,
      (write w render traj out "csv" fs).1 = .ok () ∧
      (write w render traj out "csv" fs).2.readFile out.full =
        some (.csvF lines) ∧
      lines.length = traj.length + 1 ∧
      lines.head? = some (csvLine w.joint_names) ∧
      (∀ (k : Nat) (hk : k < rows.length) (hkl : k + 1 < lines.length),
        lines.get ⟨k + 1, hkl⟩ = csvLine ((rows.get ⟨k, hk⟩).map render))) ∧
    ((write w render traj out "json" fs).1 = .ok () ∧
      ∃ steps,
        (write w render traj out "json" fs).2.readFile out.full =
          some (.jsonF w.joint_names steps) ∧
        steps.length = traj.length ∧
        (∀ (k : Nat) (hk : k < rows.length) (hks : k < steps.length),
          steps.get ⟨k, hks⟩ = w.joint_names.zip (rows.get ⟨k, hk⟩))) := by
  have hlen := validateFrom_ok_length w traj 0 rows hval
  have hcsv : write w render traj out "csv" fs =
      (.ok (), (fs.mkdirParents out.parent).putFile out.full
        (.csvF (csvLine w.joint_names ::
          rows.map (fun r => csvLine (r.map render))))) := by
    unfold write
    simp only [hval]
    simp
  have hjson : write w render traj out "json" fs =
      (.ok (), (fs.mkdirParents out.parent).putFile out.full
        (.jsonF w.joint_names (rows.map (fun r => w.joint_names.zip r)))) := by
    unfold write
    simp only [hval]
    simp
  refine ⟨?_, ?_, ?_⟩
  · intro k hk hr
    have hg := validateFrom_ok_get w traj 0 rows hval k hk hr
    simpa using hg
  · refine ⟨csvLine w.joint_names ::
      rows.map (fun r => csvLine (r.map render)), by rw [hcsv], ?_, ?_, rfl, ?_⟩
    · rw [hcsv]
      exact readFile_putFile _ _ _
    · simp [hlen]
    · intro k hk hkl
      simp [List.get_eq_getElem, List.getElem_cons_succ, List.getElem_map]
  · refine ⟨by rw [hjson], rows.map (fun r => w.joint_names.zip r), ?_, ?_, ?_⟩
    · rw [hjson]
      exact readFile_putFile _ _ _
    · simp [hlen]
    · intro k hk hks
      simp [List.get_eq_getElem, List.getElem_map]

/-- Witness for C8: one valid timestep over a single joint. -/
theorem c8_witness :
    (∀ (k : Nat) (hk : k < ([⟨.dict [("a", 1)], none⟩] :
        List (JointState Int)).length) (hr : k < ([[1]] : List (List Int)).length),
      validate_state ⟨["a"], 1⟩
        (([⟨.dict [("a", 1)], none⟩] : List (JointState Int)).get ⟨k, hk⟩) k =
        .ok (([[1]] : List (List Int)).get ⟨k, hr⟩)) ∧
    (∃ lines,
      (write (⟨["a"], 1⟩ : URDFTrajectoryWriter) (fun _ : Int => "0")
        [⟨.dict [("a", 1)], none⟩] ⟨"o", "f"⟩ "csv" ⟨[], []⟩).1 = .ok () ∧
      (write (⟨["a"], 1⟩ : URDFTrajectoryWriter) (fun _ : Int => "0")
        [⟨.dict [("a", 1)], none⟩] ⟨"o", "f"⟩ "csv" ⟨[], []⟩).2.readFile
          (OutPath.full ⟨"o", "f"⟩) = some (.csvF lines) ∧
      lines.length = ([⟨.dict [("a", 1)], none⟩] :
        List (JointState Int)).length + 1 ∧
      lines.head? = some (csvLine (["a"] : List String)) ∧
      (∀ (k : Nat) (hk : k < ([[1]] : List (List Int)).length)
        (hkl : k + 1 < lines.length),
        lines.get ⟨k + 1, hkl⟩ =
          csvLine ((([[1]] : List (List Int)).get ⟨k, hk⟩).map
            (fun _ : Int => "0")))) ∧
    ((write (⟨["a"], 1⟩ : URDFTrajectoryWriter) (fun _ : Int => "0")
        [⟨.dict [("a", 1)], none⟩] ⟨"o", "f"⟩ "json" ⟨[], []⟩).1 = .ok () ∧
      ∃ steps,
        (write (⟨["a"], 1⟩ : URDFTrajectoryWriter) (fun _ : Int => "0")
          [⟨.dict [("a", 1)], none⟩] ⟨"o", "f"⟩ "json" ⟨[], []⟩).2.readFile
            (OutPath.full ⟨"o", "f"⟩) =
          some (.jsonF (["a"] : List String) steps) ∧
        steps.length = ([⟨.dict [("a", 1)], none⟩] :
          List (JointState Int)).length ∧
        (∀ (k : Nat) (hk : k < ([[1]] : List (List Int)).length)
          (hks : k < steps.length),
          steps.get ⟨k, hks⟩ =
            (["a"] : List String).zip (([[1]] : List (List Int)).get ⟨k, hk⟩))) :=
  c8_round_trip ⟨["a"], 1⟩ (fun _ : Int => "0") [⟨.dict [("a", 1)], none⟩]
    ⟨"o", "f"⟩ ⟨[], []⟩ [[1]] rfl

/-- C9: the defensive row-length check of `_validate_state` fails with a
ValidationError naming the timestep index, the stored joint count and the
actual length whenever violated; every successful `get_ordered_positions`
row has the joint order's length (duplicates included), so for writers whose
stored count equals that length — as every constructed writer's does — the
branch is unreachable. -/
theorem c9_defensive_row_length {α : Type} (w : URDFTrajectoryWriter)
    (state : JointState α) (index : Nat) :
    (∀ row : List α, get_ordered_positions state w.joint_names = .ok row →
      row.length ≠ w.num_joints →
      validate_state w state index =
        .error (.validationErr index w.num_joints row.length)) ∧
    (∀ row : List α, get_ordered_positions state w.joint_names = .ok row →
      row.length = w.joint_names.length) ∧
    (w.num_joints = w.joint_names.length →
      ∀ row : List α, get_ordered_positions state w.joint_names = .ok row →
      validate_state w state index = .ok row) ∧
    (∀ (path : String) (file : UrdfFile) (w2 : URDFTrajectoryWriter),
      mkWriter path file = .ok w2 → w2.num_joints = w2.joint_names.length) := by
  refine ⟨?_, fun row hg => gop_ok_length hg,
    fun hn row hg => validate_state_ok_of_gop hn hg, ?_⟩
  · intro row hg hne
    unfold validate_state
    simp only [hg]
    rw [if_pos hne]
  · intro path file w2 h
    unfold mkWriter at h
    cases hg : get_actuated_joint_names path file with
    | error e =>
      simp only [hg] at h
      exact Except.noConfusion h
    | ok ns =>
      simp only [hg] at h
      injection h with h
      rw [← h]

/-- Witness for C9: a writer whose joint order repeats one name; the row has
length two and the defensive check passes. -/
theorem c9_witness :
    validate_state (⟨["a", "a"], 2⟩ : URDFTrajectoryWriter)
      (⟨.dict [("a", 1)], none⟩ : JointState Int) 0 = .ok [1, 1] :=
  c9_defensive_row_length (⟨["a", "a"], 2⟩ : URDFTrajectoryWriter)
    (⟨.dict [("a", 1)], none⟩ : JointState Int) 0 |>.2.2.1 rfl [1, 1] rfl

/-- Witness for C10: names a, a with values 1, 2; the mapping keeps one entry
with value 2. -/
theorem c10_witness :
    get_positions_dict (⟨.list [1, 2], some ["a", "a"]⟩ : JointState Int) =
      .ok ((["a", "a"] : List String).zip [1, 2]) ∧
    (dictKeys ((["a", "a"] : List String).zip ([1, 2] : List Int))).length <
      (["a", "a"] : List String).length ∧
    (∀ (j : Nat) (hj : j < (["a", "a"] : List String).length)
      (hjp : j < ([1, 2] : List Int).length),
      (∀ (j2 : Nat) (hj2 : j2 < (["a", "a"] : List String).length), j < j2 →
        (["a", "a"] : List String).get ⟨j2, hj2⟩ ≠
          (["a", "a"] : List String).get ⟨j, hj⟩) →
      dictGet ((["a", "a"] : List String).zip ([1, 2] : List Int))
        ((["a", "a"] : List String).get ⟨j, hj⟩) =
        some (([1, 2] : List Int).get ⟨j, hjp⟩)) :=
  c10_duplicate_names_last_wins ["a", "a"] [1, 2] rfl (by decide)

end UTE
